import Mathlib

/-!
Verification of the leader-election core of a Raft-style node
(src/src/server.rs). The embedding mirrors the Rust source: the
per-node voting state, the vote adjudication function
process_vote_request, and the election round request_vote with its
response-tally loop. Machine integers (i64) are modelled as Int;
the asynchronous arrival of peer responses is modelled as the list
of results the tally loop consumes in arrival order, where none
stands for a dropped (Err) oneshot receiver.
-/

namespace RsRaft

/-- Role of a node, mirroring enum ElectionState in server.rs. -/
inductive ElectionState where
  | Follower
  | Candidate
  | Leader
deriving DecidableEq, Repr

/-- Mutable per-node state, mirroring struct State in server.rs. -/
structure State where
  election_state : ElectionState
  current_term : Int
  voted_for : Option Int
deriving DecidableEq, Repr

/-- Mirrors struct VoteRequest in server.rs. -/
structure VoteRequest where
  term : Int
  candidate_id : Int
deriving DecidableEq, Repr

/-- Mirrors struct VoteResponse in server.rs. -/
structure VoteResponse where
  term : Int
  vote_granted : Bool
deriving DecidableEq, Repr

/-- Embedding of process_vote_request (server.rs lines 166-207).
The Rust body initialises vote_granted = false and term = 0 and then
runs three sequential if statements that may mutate the locked state
and the two local variables; we thread (state, term, vote_granted)
through the three steps in the same order. -/
def process_vote_request (s : State) (r : VoteRequest) : State × VoteResponse :=
  let init : State × Int × Bool := (s, 0, false)
  let step1 : State × Int × Bool :=
    if r.term < init.1.current_term then
      (init.1, init.1.current_term, false)
    else init
  let step2 : State × Int × Bool :=
    if r.term = step1.1.current_term then
      match step1.1.voted_for with
      | some id =>
        if id = r.candidate_id then
          (step1.1, r.term, true)
        else
          (step1.1, step1.2.1, false)
      | none =>
        ({ step1.1 with voted_for := some r.candidate_id, current_term := r.term },
          r.term, true)
    else step1
  let step3 : State × Int × Bool :=
    if r.term > step2.1.current_term then
      ({ step2.1 with voted_for := some r.candidate_id, current_term := r.term },
        r.term, true)
    else step2
  (step3.1, { term := step3.2.1, vote_granted := step3.2.2 })

/-- Embedding of the while-let tally loop of request_vote
(server.rs lines 144-163) together with the final quorum check.
nodes_len is nodes.len(), voted the granted-vote counter, and the
list holds the oneshot results in arrival order (none for Err). -/
def election_loop (nodes_len : Nat) (s : State) (voted : Nat) :
    List (Option VoteResponse) → State
  | [] =>
      if nodes_len / 2 ≤ voted then
        { s with election_state := ElectionState.Leader }
      else s
  | result :: rest =>
      match result with
      | some vote_response =>
          if vote_response.term > s.current_term then
            { s with election_state := ElectionState.Follower,
                     current_term := vote_response.term }
          else if vote_response.vote_granted then
            election_loop nodes_len s (voted + 1) rest
          else
            election_loop nodes_len s voted rest
      | none => election_loop nodes_len s voted rest

/-- Embedding of request_vote (server.rs lines 120-164): become
Candidate, increment the term, vote for self, then tally the peer
responses with election_loop. -/
def request_vote (id : Int) (nodes_len : Nat) (s : State)
    (results : List (Option VoteResponse)) : State :=
  let s1 : State :=
    { election_state := ElectionState.Candidate,
      current_term := s.current_term + 1,
      voted_for := some id }
  election_loop nodes_len s1 0 results

/-- Deliver a list of vote requests in order through
process_vote_request, returning the responses. -/
def run_requests (s : State) : List VoteRequest → List VoteResponse
  | [] => []
  | r :: rest =>
      let p := process_vote_request s r
      p.2 :: run_requests p.1 rest

/-- The (term, candidateId) pairs of the requests that were granted
when a list of vote requests is delivered in order. -/
def granted_votes (s : State) : List VoteRequest → List (Int × Int)
  | [] => []
  | r :: rest =>
      let p := process_vote_request s r
      if p.2.vote_granted then
        (p.2.term, r.candidate_id) :: granted_votes p.1 rest
      else
        granted_votes p.1 rest

/-- Number of responses that arrived (Ok) with vote_granted = true. -/
def count_granted : List (Option VoteResponse) → Nat
  | [] => 0
  | some v :: rest => (if v.vote_granted then 1 else 0) + count_granted rest
  | none :: rest => count_granted rest

/-- Case-analysed form of process_vote_request: the three sequential
if statements of the source behave as the single decision tree below
because the first branch leaves the state unchanged and the second
branch only ever sets current_term to a value equal to it. -/
theorem process_vote_request_eq (s : State) (r : VoteRequest) :
    process_vote_request s r =
      if r.term < s.current_term then
        (s, { term := s.current_term, vote_granted := false })
      else if r.term = s.current_term then
        match s.voted_for with
        | some id =>
            if id = r.candidate_id then
              (s, { term := r.term, vote_granted := true })
            else
              (s, { term := 0, vote_granted := false })
        | none =>
            ({ s with voted_for := some r.candidate_id, current_term := r.term },
              { term := r.term, vote_granted := true })
      else
        ({ s with voted_for := some r.candidate_id, current_term := r.term },
          { term := r.term, vote_granted := true }) := by
  by_cases h1 : r.term < s.current_term
  · have h2 : ¬ r.term = s.current_term := by omega
    have h3 : ¬ r.term > s.current_term := by omega
    simp [process_vote_request, h1, h2, h3]
  · by_cases h2 : r.term = s.current_term
    · cases hv : s.voted_for with
      | some id =>
          by_cases h4 : id = r.candidate_id
          · simp [process_vote_request, h1, h2, hv, h4]
          · simp [process_vote_request, h1, h2, hv, h4]
      | none =>
          simp [process_vote_request, h1, h2, hv]
    · have h3 : r.term > s.current_term := by omega
      simp [process_vote_request, h1, h2, h3]

/-- Current term never decreases across one call of
process_vote_request. -/
theorem process_vote_request_mono (s : State) (r : VoteRequest) :
    s.current_term ≤ (process_vote_request s r).1.current_term := by
  rw [process_vote_request_eq]
  by_cases h1 : r.term < s.current_term
  · simp [h1]
  · by_cases h2 : r.term = s.current_term
    · cases hv : s.voted_for with
      | some id =>
          by_cases h4 : id = r.candidate_id <;> simp [h1, h2, hv, h4]
      | none => simp [h1, h2, hv]
    · simp [h1, h2]; omega

/-- A granted vote leaves the node with current_term equal to the
request term, voted_for recording the candidate, and the reply term
equal to the request term. -/
theorem process_vote_request_grant (s : State) (r : VoteRequest)
    (h : (process_vote_request s r).2.vote_granted = true) :
    (process_vote_request s r).1.current_term = r.term ∧
    (process_vote_request s r).1.voted_for = some r.candidate_id ∧
    (process_vote_request s r).2.term = r.term := by
  rw [process_vote_request_eq] at h ⊢
  by_cases h1 : r.term < s.current_term
  · simp [h1] at h
  · by_cases h2 : r.term = s.current_term
    · cases hv : s.voted_for with
      | some id =>
          by_cases h4 : id = r.candidate_id
          · simp [h1, h2, hv, h4]
          · simp [h1, h2, hv, h4] at h
      | none => simp [h1, h2, hv]
    · simp [h1, h2]

/-- A vote is only ever granted for a term at least the current one. -/
theorem process_vote_request_grant_le (s : State) (r : VoteRequest)
    (h : (process_vote_request s r).2.vote_granted = true) :
    s.current_term ≤ r.term := by
  rw [process_vote_request_eq] at h
  by_cases h1 : r.term < s.current_term
  · simp [h1] at h
  · omega

/-- If the node already voted for c in the current term, a grant in
that same term can only go to c again. -/
theorem process_vote_request_grant_voted (s : State) (r : VoteRequest) (c : Int)
    (ht : s.current_term = r.term) (hv : s.voted_for = some c)
    (h : (process_vote_request s r).2.vote_granted = true) :
    r.candidate_id = c := by
  rw [process_vote_request_eq] at h
  have h1 : ¬ r.term < s.current_term := by omega
  have h2 : r.term = s.current_term := by omega
  by_cases h4 : c = r.candidate_id
  · omega
  · simp [h1, h2, hv, h4] at h

/-- With voted_for set, a call either leaves the state untouched or
strictly increases the current term. -/
theorem process_vote_request_preserve (s : State) (r : VoteRequest) (c : Int)
    (hv : s.voted_for = some c) :
    (process_vote_request s r).1 = s ∨
    s.current_term < (process_vote_request s r).1.current_term := by
  rw [process_vote_request_eq]
  by_cases h1 : r.term < s.current_term
  · simp [h1]
  · by_cases h2 : r.term = s.current_term
    · by_cases h4 : c = r.candidate_id <;> simp [h1, h2, hv, h4]
    · simp [h1, h2]
      omega

/-- The tally loop never decreases the current term. -/
theorem election_loop_mono (n : Nat) (s : State) (v : Nat)
    (res : List (Option VoteResponse)) :
    s.current_term ≤ (election_loop n s v res).current_term := by
  induction res generalizing v with
  | nil =>
      simp only [election_loop]
      split <;> simp
  | cons x rest ih =>
      cases x with
      | none => simpa only [election_loop] using ih v
      | some resp =>
          simp only [election_loop]
          by_cases h1 : resp.term > s.current_term
          · simp [h1]
            omega
          · by_cases h2 : resp.vote_granted <;> simp [h1, h2] <;>
              first
              | exact ih (v + 1)
              | exact ih v

/-- The tally loop never changes voted_for. -/
theorem election_loop_voted_for (n : Nat) (s : State) (v : Nat)
    (res : List (Option VoteResponse)) :
    (election_loop n s v res).voted_for = s.voted_for := by
  induction res generalizing v with
  | nil =>
      simp only [election_loop]
      split <;> simp
  | cons x rest ih =>
      cases x with
      | none => simpa only [election_loop] using ih v
      | some resp =>
          simp only [election_loop]
          by_cases h1 : resp.term > s.current_term
          · simp [h1]
          · by_cases h2 : resp.vote_granted <;> simp [h1, h2] <;>
              first
              | exact ih (v + 1)
              | exact ih v

/-- When no arriving response carries a term above the current one,
the tally loop runs to completion and applies the quorum check to
the initial counter plus the number of granted responses. -/
theorem election_loop_no_abandon (n : Nat) (s : State) (v : Nat)
    (res : List (Option VoteResponse))
    (h : ∀ resp : VoteResponse, some resp ∈ res → resp.term ≤ s.current_term) :
    election_loop n s v res =
      if n / 2 ≤ v + count_granted res then
        { s with election_state := ElectionState.Leader }
      else s := by
  induction res generalizing v with
  | nil => simp [election_loop, count_granted]
  | cons x rest ih =>
      cases x with
      | none =>
          simp only [election_loop, count_granted]
          exact ih v fun resp hm => h resp (List.mem_cons_of_mem _ hm)
      | some resp =>
          have hle : resp.term ≤ s.current_term := h resp (List.mem_cons_self _ _)
          have h1 : ¬ resp.term > s.current_term := by omega
          have hrest : ∀ w : VoteResponse, some w ∈ rest → w.term ≤ s.current_term :=
            fun w hm => h w (List.mem_cons_of_mem _ hm)
          by_cases h2 : resp.vote_granted
          · have := ih (v + 1) hrest
            simp only [election_loop, count_granted, h1, if_false, h2, if_true]
            rw [this]
            have harith : v + 1 + count_granted rest = v + (1 + count_granted rest) := by
              omega
            simp [h2, harith]
          · have := ih v hrest
            simp only [election_loop, count_granted, h1, if_false, h2, if_false]
            rw [this]
            simp [h2]

/-- The first response bearing a term above the current one makes the
tally loop step down and stop: the result is Follower at that term,
independently of everything after it and of the counter so far. -/
theorem election_loop_abandon (n : Nat) (s : State) (v : Nat)
    (pre post : List (Option VoteResponse)) (resp : VoteResponse)
    (hpre : ∀ w : VoteResponse, some w ∈ pre → w.term ≤ s.current_term)
    (hresp : resp.term > s.current_term) :
    election_loop n s v (pre ++ some resp :: post) =
      { s with election_state := ElectionState.Follower,
               current_term := resp.term } := by
  induction pre generalizing v with
  | nil =>
      simp [election_loop, hresp]
  | cons x rest ih =>
      cases x with
      | none =>
          simp only [List.cons_append, election_loop]
          exact ih v fun w hm => hpre w (List.mem_cons_of_mem _ hm)
      | some w =>
          have hle : w.term ≤ s.current_term := hpre w (List.mem_cons_self _ _)
          have h1 : ¬ w.term > s.current_term := by omega
          have hrest : ∀ u : VoteResponse, some u ∈ rest → u.term ≤ s.current_term :=
            fun u hm => hpre u (List.mem_cons_of_mem _ hm)
          by_cases h2 : w.vote_granted <;>
            simp only [List.cons_append, election_loop, h1, if_false, h2,
              if_true, if_false] <;>
            first
            | exact ih (v + 1) hrest
            | exact ih v hrest

/-- If every result in the list is a granted response, the granted
count is the length of the list. -/
theorem count_granted_all (res : List (Option VoteResponse))
    (h : ∀ x ∈ res, ∃ resp : VoteResponse, x = some resp ∧ resp.vote_granted) :
    count_granted res = res.length := by
  induction res with
  | nil => simp [count_granted]
  | cons x rest ih =>
      obtain ⟨resp, hx, hg⟩ := h x (List.mem_cons_self _ _)
      subst hx
      simp [count_granted, hg, ih fun y hm => h y (List.mem_cons_of_mem _ hm)]
      omega

/-- Every grant recorded while delivering a list of requests is for a
term at least the starting current term. -/
theorem granted_votes_term_ge (s : State) (reqs : List VoteRequest) :
    ∀ p ∈ granted_votes s reqs, s.current_term ≤ p.1 := by
  induction reqs generalizing s with
  | nil => simp [granted_votes]
  | cons r rest ih =>
      intro p hp
      simp only [granted_votes] at hp
      by_cases hg : (process_vote_request s r).2.vote_granted
      · simp only [hg, if_true, List.mem_cons] at hp
        rcases hp with hp | hp
        · subst hp
          have := process_vote_request_grant s r hg
          have := process_vote_request_grant_le s r hg
          simp only []
          omega
        · have h1 := process_vote_request_mono s r
          have h2 := ih (process_vote_request s r).1 p hp
          omega
      · simp only [hg, if_false] at hp
        have h1 := process_vote_request_mono s r
        have h2 := ih (process_vote_request s r).1 p hp
        omega

/-- If the node has already voted for c, every later grant issued at
the current term is again for c. -/
theorem granted_votes_voted (s : State) (c : Int) (reqs : List VoteRequest)
    (hv : s.voted_for = some c) :
    ∀ p ∈ granted_votes s reqs, p.1 = s.current_term → p.2 = c := by
  induction reqs generalizing s with
  | nil => simp [granted_votes]
  | cons r rest ih =>
      intro p hp hterm
      simp only [granted_votes] at hp
      by_cases hg : (process_vote_request s r).2.vote_granted
      · simp only [hg, if_true, List.mem_cons] at hp
        rcases hp with hp | hp
        · subst hp
          obtain ⟨_, _, hrt⟩ := process_vote_request_grant s r hg
          simp only [] at hterm ⊢
          exact process_vote_request_grant_voted s r c (by omega) hv hg
        · rcases process_vote_request_preserve s r c hv with heq | hlt
          · rw [heq] at hp
            exact ih s hv p hp hterm
          · have := granted_votes_term_ge (process_vote_request s r).1 rest p hp
            omega
      · simp only [hg, if_false] at hp
        rcases process_vote_request_preserve s r c hv with heq | hlt
        · rw [heq] at hp
          exact ih s hv p hp hterm
        · have := granted_votes_term_ge (process_vote_request s r).1 rest p hp
          omega

/-- Shared helper: the higher-term branch of process_vote_request
adopts the term, records the candidate, grants, and leaves the role
untouched. -/
theorem process_vote_request_higher (s : State) (r : VoteRequest)
    (h : r.term > s.current_term) :
    process_vote_request s r =
      ({ s with current_term := r.term, voted_for := some r.candidate_id },
        { term := r.term, vote_granted := true }) := by
  rw [process_vote_request_eq]
  have h1 : ¬ r.term < s.current_term := by omega
  have h2 : ¬ r.term = s.current_term := by omega
  simp [h1, h2]

/-- C1. Vote uniqueness: delivering any sequence of vote requests
through process_vote_request, the node grants at most one distinct
candidate per term — any two granted (term, candidateId) pairs with
the same term name the same candidate. -/
theorem C1_vote_uniqueness (s : State) (reqs : List VoteRequest)
    (p q : Int × Int) (hp : p ∈ granted_votes s reqs)
    (hq : q ∈ granted_votes s reqs) (ht : p.1 = q.1) : p.2 = q.2 := by
  induction reqs generalizing s with
  | nil => simp [granted_votes] at hp
  | cons r rest ih =>
      simp only [granted_votes] at hp hq
      by_cases hg : (process_vote_request s r).2.vote_granted
      · obtain ⟨hct, hvf, hrt⟩ := process_vote_request_grant s r hg
        simp only [hg, if_true, List.mem_cons] at hp hq
        rcases hp with hp | hp <;> rcases hq with hq | hq
        · rw [hp, hq]
        · subst hp
          have hq1 : q.1 = (process_vote_request s r).1.current_term := by
            simp only [] at ht
            omega
          have := granted_votes_voted (process_vote_request s r).1
            r.candidate_id rest hvf q hq hq1
          simp only []
          omega
        · subst hq
          have hp1 : p.1 = (process_vote_request s r).1.current_term := by
            simp only [] at ht
            omega
          have := granted_votes_voted (process_vote_request s r).1
            r.candidate_id rest hvf p hp hp1
          simp only []
          omega
        · exact ih (process_vote_request s r).1 hp hq
      · simp only [hg, if_false] at hp hq
        exact ih (process_vote_request s r).1 hp hq

/-- C1 witness: the same candidate 5 is granted twice in term 1 and
the theorem applies to the two recorded grants. -/
theorem C1_vote_uniqueness_witness :
    ((1, 5) : Int × Int) ∈
      granted_votes ⟨ElectionState.Follower, 0, none⟩ [⟨1, 5⟩, ⟨1, 5⟩] ∧
    ((1, 5) : Int × Int).2 = ((1, 5) : Int × Int).2 :=
  ⟨by decide,
    C1_vote_uniqueness ⟨ElectionState.Follower, 0, none⟩ [⟨1, 5⟩, ⟨1, 5⟩]
      (1, 5) (1, 5) (by decide) (by decide) rfl⟩

/-- C2 counterexample: a request with a higher term delivered to a
Leader leaves the role Leader; process_vote_request never demotes to
Follower, contrary to the claim. -/
theorem C2_step_down_counterexample :
    (process_vote_request ⟨ElectionState.Leader, 0, none⟩ ⟨1, 7⟩).1.election_state =
      ElectionState.Leader ∧
    ElectionState.Leader ≠ ElectionState.Follower := by
  decide

/-- C2 amended: on request.term above currentTerm the node adopts the
term, records votedFor = candidateId and grants, but the role is left
unchanged (no demotion to Follower happens in process_vote_request). -/
theorem C2_higher_term_adopt (s : State) (r : VoteRequest)
    (h : r.term > s.current_term) :
    process_vote_request s r =
      ({ s with current_term := r.term, voted_for := some r.candidate_id },
        { term := r.term, vote_granted := true }) :=
  process_vote_request_higher s r h

/-- C2 witness: concrete higher-term request at a Candidate node. -/
theorem C2_higher_term_adopt_witness :
    (1 : Int) > (0 : Int) ∧
    process_vote_request ⟨ElectionState.Candidate, 0, none⟩ ⟨1, 7⟩ =
      (⟨ElectionState.Candidate, 1, some 7⟩, ⟨1, true⟩) :=
  ⟨by decide,
    C2_higher_term_adopt ⟨ElectionState.Candidate, 0, none⟩ ⟨1, 7⟩ (by decide)⟩

/-- C3. Term monotonicity: process_vote_request, every step of the
tally loop of request_vote (from any intermediate state and counter,
covering both the abandon path and the quorum decision) and a whole
request_vote round never decrease current_term. -/
theorem C3_term_monotonicity (s : State) (r : VoteRequest) (id : Int)
    (n v : Nat) (results : List (Option VoteResponse)) :
    s.current_term ≤ (process_vote_request s r).1.current_term ∧
    s.current_term ≤ (election_loop n s v results).current_term ∧
    s.current_term ≤ (request_vote id n s results).current_term := by
  refine ⟨process_vote_request_mono s r, election_loop_mono n s v results, ?_⟩
  have h := election_loop_mono n
    ⟨ElectionState.Candidate, s.current_term + 1, some id⟩ 0 results
  simp only [request_vote]
  simp only [] at h
  omega

/-- C4. Quorum rule: when no response carries a term above the
candidate term, the node becomes Leader exactly when the granted
count reaches nodes.len() / 2, stays Candidate below it, and in
particular becomes Leader when all of the n peers grant. -/
theorem C4_quorum_rule (id : Int) (n : Nat) (s : State)
    (results : List (Option VoteResponse))
    (h : ∀ resp : VoteResponse, some resp ∈ results →
      resp.term ≤ s.current_term + 1) :
    ((request_vote id n s results).election_state = ElectionState.Leader ↔
      n / 2 ≤ count_granted results) ∧
    (count_granted results < n / 2 →
      (request_vote id n s results).election_state = ElectionState.Candidate) ∧
    ((∀ x ∈ results, ∃ resp : VoteResponse, x = some resp ∧ resp.vote_granted) →
      results.length = n →
      (request_vote id n s results).election_state = ElectionState.Leader) := by
  have hloop := election_loop_no_abandon n
    ⟨ElectionState.Candidate, s.current_term + 1, some id⟩ 0 results h
  simp only [request_vote]
  rw [hloop]
  by_cases hc : n / 2 ≤ count_granted results
  · rw [if_pos (show n / 2 ≤ 0 + count_granted results by omega)]
    refine ⟨by simp [hc], fun hlt => absurd hc (by omega), fun _ _ => rfl⟩
  · rw [if_neg (show ¬ n / 2 ≤ 0 + count_granted results by omega)]
    refine ⟨?_, fun _ => rfl, ?_⟩
    · constructor
      · intro hcon
        simp at hcon
      · intro hcount
        exact absurd hcount hc
    · intro hall hlen
      have hcg : count_granted results = n := by
        rw [count_granted_all results hall, hlen]
      exact absurd (show n / 2 ≤ count_granted results by omega) hc

/-- C4 witness: four peers all grant in term 1; the quorum 4 / 2 = 2
is met and the node ends the round as Leader. -/
theorem C4_quorum_rule_witness :
    (∀ resp : VoteResponse,
      some resp ∈ ([some ⟨1, true⟩, some ⟨1, true⟩, some ⟨1, true⟩,
        some ⟨1, true⟩] : List (Option VoteResponse)) →
      resp.term ≤ (0 : Int) + 1) ∧
    ((request_vote 0 4 ⟨ElectionState.Follower, 0, none⟩
        [some ⟨1, true⟩, some ⟨1, true⟩, some ⟨1, true⟩,
          some ⟨1, true⟩]).election_state = ElectionState.Leader ↔
      4 / 2 ≤ count_granted
        [some ⟨1, true⟩, some ⟨1, true⟩, some ⟨1, true⟩, some ⟨1, true⟩]) ∧
    (count_granted
        [some ⟨1, true⟩, some ⟨1, true⟩, some ⟨1, true⟩, some ⟨1, true⟩] <
        4 / 2 →
      (request_vote 0 4 ⟨ElectionState.Follower, 0, none⟩
        [some ⟨1, true⟩, some ⟨1, true⟩, some ⟨1, true⟩,
          some ⟨1, true⟩]).election_state = ElectionState.Candidate) ∧
    ((∀ x ∈ ([some ⟨1, true⟩, some ⟨1, true⟩, some ⟨1, true⟩,
        some ⟨1, true⟩] : List (Option VoteResponse)),
        ∃ resp : VoteResponse, x = some resp ∧ resp.vote_granted) →
      ([some ⟨1, true⟩, some ⟨1, true⟩, some ⟨1, true⟩,
        some ⟨1, true⟩] : List (Option VoteResponse)).length = 4 →
      (request_vote 0 4 ⟨ElectionState.Follower, 0, none⟩
        [some ⟨1, true⟩, some ⟨1, true⟩, some ⟨1, true⟩,
          some ⟨1, true⟩]).election_state = ElectionState.Leader) := by
  refine ⟨?_, ?_⟩
  · intro resp hm
    simp only [List.mem_cons, List.not_mem_nil, or_false,
      Option.some.injEq] at hm
    rcases hm with hm | hm | hm | hm <;> subst hm <;> decide
  · exact C4_quorum_rule 0 4 ⟨ElectionState.Follower, 0, none⟩
      [some ⟨1, true⟩, some ⟨1, true⟩, some ⟨1, true⟩, some ⟨1, true⟩]
      (by
        intro resp hm
        simp only [List.mem_cons, List.not_mem_nil, or_false,
          Option.some.injEq] at hm
        rcases hm with hm | hm | hm | hm <;> subst hm <;> decide)

/-- C5. Abandon on higher term: the first response whose term exceeds
the candidate term makes the round end as Follower at that term with
votedFor still the self vote, independently of every response after
it and of the grants already tallied. -/
theorem C5_abandon_on_higher_term (id : Int) (n : Nat) (s : State)
    (pre post : List (Option VoteResponse)) (resp : VoteResponse)
    (hpre : ∀ w : VoteResponse, some w ∈ pre → w.term ≤ s.current_term + 1)
    (hresp : resp.term > s.current_term + 1) :
    request_vote id n s (pre ++ some resp :: post) =
      { election_state := ElectionState.Follower,
        current_term := resp.term, voted_for := some id } := by
  simp only [request_vote]
  exact election_loop_abandon n
    ⟨ElectionState.Candidate, s.current_term + 1, some id⟩ 0 pre post resp
    hpre hresp

/-- C5 witness: two grants arrive first, then term 5 exceeds the
candidate term 2; the round ends Follower at term 5 and the grant
after the abandon is discarded. -/
theorem C5_abandon_on_higher_term_witness :
    (∀ w : VoteResponse,
      some w ∈ ([some ⟨2, true⟩, some ⟨2, true⟩] :
        List (Option VoteResponse)) → w.term ≤ (1 : Int) + 1) ∧
    (5 : Int) > (1 : Int) + 1 ∧
    request_vote 0 4 ⟨ElectionState.Follower, 1, none⟩
        ([some ⟨2, true⟩, some ⟨2, true⟩] ++ some ⟨5, false⟩ ::
          [some ⟨2, true⟩]) =
      { election_state := ElectionState.Follower,
        current_term := 5, voted_for := some 0 } := by
  refine ⟨?_, by decide, ?_⟩
  · intro w hm
    simp only [List.mem_cons, List.not_mem_nil, or_false,
      Option.some.injEq] at hm
    rcases hm with hm | hm <;> subst hm <;> decide
  · exact C5_abandon_on_higher_term 0 4 ⟨ElectionState.Follower, 1, none⟩
      [some ⟨2, true⟩, some ⟨2, true⟩] [some ⟨2, true⟩] ⟨5, false⟩
      (by
        intro w hm
        simp only [List.mem_cons, List.not_mem_nil, or_false,
          Option.some.injEq] at hm
        rcases hm with hm | hm <;> subst hm <;> decide)
      (by decide)

/-- C6 counterexample: at currentTerm 1 with votedFor = some 0, the
equal-term request from candidate 2 is denied, but the reply term is
0 (the initial value of the local variable term, never assigned on
this path), not request.term = 1. The state is unchanged. -/
theorem C6_equal_term_denial_counterexample :
    process_vote_request ⟨ElectionState.Follower, 1, some 0⟩ ⟨1, 2⟩ =
      (⟨ElectionState.Follower, 1, some 0⟩, ⟨0, false⟩) ∧
    (0 : Int) ≠ 1 := by
  decide

/-- C6 amended: with votedFor = some x and an equal-term request from
a different candidate, the node denies and leaves currentTerm,
votedFor and role unchanged, but the reply carries term 0 (the
unassigned initial value), not request.term. -/
theorem C6_equal_term_denial (s : State) (r : VoteRequest) (x : Int)
    (ht : r.term = s.current_term) (hv : s.voted_for = some x)
    (hne : x ≠ r.candidate_id) :
    process_vote_request s r = (s, { term := 0, vote_granted := false }) := by
  rw [process_vote_request_eq]
  have h1 : ¬ r.term < s.current_term := by omega
  simp [h1, ht, hv, hne]

/-- C6 witness: the counterexample state and request instantiate the
amended theorem. -/
theorem C6_equal_term_denial_witness :
    (1 : Int) = (1 : Int) ∧ some (0 : Int) = some (0 : Int) ∧
    (0 : Int) ≠ (2 : Int) ∧
    process_vote_request ⟨ElectionState.Follower, 1, some 0⟩ ⟨1, 2⟩ =
      (⟨ElectionState.Follower, 1, some 0⟩, ⟨0, false⟩) :=
  ⟨rfl, rfl, by decide,
    C6_equal_term_denial ⟨ElectionState.Follower, 1, some 0⟩ ⟨1, 2⟩ 0
      rfl rfl (by decide)⟩

/-- C7 counterexample: an election of node 1 from term 0 sets
votedFor = some 1 for candidate term 1; the abandoning response with
term 5 advances currentTerm from 1 to 5 but votedFor is neither
cleared nor overwritten — it still holds the vote cast in term 1,
an earlier term than the new currentTerm. -/
theorem C7_votedfor_counterexample :
    request_vote 1 4 ⟨ElectionState.Follower, 0, none⟩ [some ⟨5, false⟩] =
      ⟨ElectionState.Follower, 5, some 1⟩ ∧
    election_loop 4 ⟨ElectionState.Candidate, 1, some 1⟩ 0 [some ⟨5, false⟩] =
      ⟨ElectionState.Follower, 5, some 1⟩ ∧
    (⟨ElectionState.Candidate, 1, some 1⟩ : State).voted_for =
      (⟨ElectionState.Follower, 5, some 1⟩ : State).voted_for ∧
    (1 : Int) < 5 := by
  decide

/-- C7 amended: the higher-term branch of process_vote_request does
overwrite votedFor together with the term advance, but the abandon
path of request_vote advances currentTerm to the response term while
keeping votedFor = some id, the self vote of the abandoned candidate
term. -/
theorem C7_term_advance_votedfor (s : State) (r : VoteRequest)
    (s2 : State) (id : Int) (n : Nat) (resp : VoteResponse)
    (post : List (Option VoteResponse))
    (h1 : r.term > s.current_term)
    (h2 : resp.term > s2.current_term + 1) :
    ((process_vote_request s r).1.current_term = r.term ∧
      (process_vote_request s r).1.voted_for = some r.candidate_id) ∧
    request_vote id n s2 (some resp :: post) =
      { election_state := ElectionState.Follower,
        current_term := resp.term, voted_for := some id } := by
  constructor
  · rw [process_vote_request_higher s r h1]
    exact ⟨rfl, rfl⟩
  · simp only [request_vote]
    exact election_loop_abandon n
      ⟨ElectionState.Candidate, s2.current_term + 1, some id⟩ 0 [] post resp
      (by simp) h2

/-- C7 witness: concrete instantiation of both conjuncts. -/
theorem C7_term_advance_votedfor_witness :
    (3 : Int) > (0 : Int) ∧ (5 : Int) > (0 : Int) + 1 ∧
    (((process_vote_request ⟨ElectionState.Follower, 0, none⟩
        ⟨3, 2⟩).1.current_term = (3 : Int) ∧
      (process_vote_request ⟨ElectionState.Follower, 0, none⟩
        ⟨3, 2⟩).1.voted_for = some 2) ∧
    request_vote 1 4 ⟨ElectionState.Follower, 0, none⟩ [some ⟨5, false⟩] =
      { election_state := ElectionState.Follower,
        current_term := 5, voted_for := some 1 }) :=
  ⟨by decide, by decide,
    C7_term_advance_votedfor ⟨ElectionState.Follower, 0, none⟩ ⟨3, 2⟩
      ⟨ElectionState.Follower, 0, none⟩ 1 4 ⟨5, false⟩ []
      (by decide) (by decide)⟩

/-- C8. Stale-term denial: a request with a term below currentTerm is
denied with reply term currentTerm and the state is returned exactly
as it was. -/
theorem C8_stale_term_denial (s : State) (r : VoteRequest)
    (h : r.term < s.current_term) :
    process_vote_request s r =
      (s, { term := s.current_term, vote_granted := false }) := by
  rw [process_vote_request_eq]
  simp [h]

/-- C8 witness: a term 0 request at a node in term 1. -/
theorem C8_stale_term_denial_witness :
    (0 : Int) < (1 : Int) ∧
    process_vote_request ⟨ElectionState.Leader, 1, some 3⟩ ⟨0, 4⟩ =
      (⟨ElectionState.Leader, 1, some 3⟩, ⟨1, false⟩) :=
  ⟨by decide,
    C8_stale_term_denial ⟨ElectionState.Leader, 1, some 3⟩ ⟨0, 4⟩ (by decide)⟩

/-- C9. Idempotent re-grant: a node that already voted for the
requesting candidate in the current term grants again with reply
term request.term and leaves the state unchanged. -/
theorem C9_idempotent_regrant (s : State) (r : VoteRequest)
    (ht : r.term = s.current_term)
    (hv : s.voted_for = some r.candidate_id) :
    process_vote_request s r =
      (s, { term := r.term, vote_granted := true }) := by
  rw [process_vote_request_eq]
  have h1 : ¬ r.term < s.current_term := by omega
  simp [h1, ht, hv]

/-- C9 witness: re-delivering the request of candidate 7 in term 3 to
a node that already voted for 7 in term 3. -/
theorem C9_idempotent_regrant_witness :
    (3 : Int) = (3 : Int) ∧ some (7 : Int) = some (7 : Int) ∧
    process_vote_request ⟨ElectionState.Follower, 3, some 7⟩ ⟨3, 7⟩ =
      (⟨ElectionState.Follower, 3, some 7⟩, ⟨3, true⟩) :=
  ⟨rfl, rfl,
    C9_idempotent_regrant ⟨ElectionState.Follower, 3, some 7⟩ ⟨3, 7⟩ rfl rfl⟩

/-- C10. With at most one peer the quorum threshold nodes.len() / 2
is 0, so any round not abandoned by a higher-term response ends as
Leader of term currentTerm + 1; with zero peers this needs no peer
response at all. -/
theorem C10_small_cluster_leader (id : Int) (n : Nat) (s : State)
    (results : List (Option VoteResponse)) (hn : n ≤ 1)
    (h : ∀ resp : VoteResponse, some resp ∈ results →
      resp.term ≤ s.current_term + 1) :
    request_vote id n s results =
      { election_state := ElectionState.Leader,
        current_term := s.current_term + 1, voted_for := some id } := by
  have hloop := election_loop_no_abandon n
    ⟨ElectionState.Candidate, s.current_term + 1, some id⟩ 0 results h
  simp only [request_vote]
  rw [hloop]
  have hc : n / 2 ≤ 0 + count_granted results := by omega
  rw [if_pos hc]

/-- C10 witness: a node with zero peers and no responses becomes
Leader of term 1. -/
theorem C10_small_cluster_leader_witness :
    (0 : Nat) ≤ 1 ∧
    request_vote 9 0 ⟨ElectionState.Follower, 0, none⟩ [] =
      { election_state := ElectionState.Leader,
        current_term := 1, voted_for := some 9 } :=
  ⟨by decide,
    C10_small_cluster_leader 9 0 ⟨ElectionState.Follower, 0, none⟩ []
      (by decide) (by simp)⟩

end RsRaft
